import Mathlib

/-!
# Verification of the batch image-normalization pipeline (src/App.tsx)

Shallow embedding of the pipeline in `src/App.tsx`:

* `processImageWithPixel` — the center-crop-then-scale transform
  (source lines 8–70).  The decoded image dimensions are passed in as
  rationals (JavaScript numbers on which only exact arithmetic is
  performed here); the result records the canvas dimensions, the ordered
  canvas operations (white fill, then the single crop-and-scale draw),
  the output MIME type and the encoder quality.
* Filename handling in `handleConvert` (source lines 182–207):
  image classification by extension (the regex test on line 184, with the
  `attachment.name || 'image.jpg'` default of line 183) and derivation of
  the output filename (lines 202–205).
* `processRecord` / `handleConvert` — the per-record processing and the
  batch loop (source lines 127–245), embedded as pure functions over a
  description of what each external call would do (the source-field read,
  each attachment's download/transform, the destination write
  acknowledgment).  The emitted `Event` trace records the progress
  updates, record completions and status messages in program order.
-/

/-- The source crop rectangle chosen by the transform (source lines 31–45). -/
structure CropRect where
  sourceX : ℚ
  sourceY : ℚ
  sourceWidth : ℚ
  sourceHeight : ℚ
deriving DecidableEq

/-- A canvas drawing operation (source lines 48–52). -/
inductive CanvasOp where
  | fillRect (style : String) (x y w h : Int)
  | drawImage (crop : CropRect) (dx dy dw dh : Int)
deriving DecidableEq

/-- The observable output of the transform: canvas pixel dimensions, the
ordered list of drawing operations, and the encoding parameters passed to
`canvas.toBlob` (source line 60). -/
structure TransformResult where
  width : Int
  height : Int
  ops : List CanvasOp
  mimeType : String
  quality : ℚ
deriving DecidableEq

/-- The crop-rectangle computation of `processImageWithPixel`
(source lines 28–45), with the two `let`-bound ratios and the
`currentRatio > targetRatio` branch. -/
def computeCrop (imgWidth imgHeight targetWidth targetHeight : ℚ) : CropRect :=
  let targetRatio := targetWidth / targetHeight
  let currentRatio := imgWidth / imgHeight
  if currentRatio > targetRatio then
    let sourceHeight := imgHeight
    let sourceWidth := imgHeight * targetRatio
    { sourceX := (imgWidth - sourceWidth) / 2
      sourceY := 0
      sourceWidth := sourceWidth
      sourceHeight := sourceHeight }
  else
    let sourceWidth := imgWidth
    let sourceHeight := imgWidth / targetRatio
    { sourceX := 0
      sourceY := (imgHeight - sourceHeight) / 2
      sourceWidth := sourceWidth
      sourceHeight := sourceHeight }

/-- `processImageWithPixel` (source lines 8–70) on an already-decoded image
of dimensions `(imgWidth, imgHeight)`: sets the canvas to the target pixel
dimensions (lines 23–24), fills it with opaque white (lines 48–49), draws
the computed source rectangle scaled to the full canvas (line 52), and
encodes as JPEG at quality 0.9 (line 60). -/
def processImageWithPixel (imgWidth imgHeight : ℚ) (targetWidth targetHeight : Int) :
    TransformResult :=
  let crop := computeCrop imgWidth imgHeight (targetWidth : ℚ) (targetHeight : ℚ)
  { width := targetWidth
    height := targetHeight
    ops := [CanvasOp.fillRect ("#FFFFFF") 0 0 targetWidth targetHeight,
            CanvasOp.drawImage crop 0 0 targetWidth targetHeight]
    mimeType := "image/jpeg"
    quality := 9 / 10 }

/-- Index of the last `'.'` in a character list, `none` when absent.
`some i` corresponds to JavaScript `lastIndexOf('.') = i` and `none` to
`-1` (equivalently `includes('.') = false`). -/
def lastDotIdx : List Char → Option Nat
  | [] => none
  | c :: cs =>
    match lastDotIdx cs with
    | some i => some (i + 1)
    | none => if c = '.' then some 0 else none

/-- The basename computation of source lines 202–204:
`fileName.includes('.') ? fileName.substring(0, fileName.lastIndexOf('.')) : fileName`. -/
def baseName (fileName : String) : String :=
  match lastDotIdx fileName.data with
  | none => fileName
  | some i => String.mk (fileName.data.take i)

/-- The derived output filename of source line 205:
`` `${baseName}_${targetWidth}x${targetHeight}.jpg` ``. -/
def newFileName (fileName : String) (targetWidth targetHeight : Int) : String :=
  baseName fileName ++ "_" ++ toString targetWidth ++ "x" ++ toString targetHeight ++ ".jpg"

/-- The lower-cased image extensions of the regex on source line 184. -/
def extSet : List (List Char) :=
  [['j', 'p', 'g'], ['j', 'p', 'e', 'g'], ['p', 'n', 'g'],
   ['w', 'e', 'b', 'p'], ['g', 'i', 'f'], ['b', 'm', 'p']]

/-- The test `/\.(jpg|jpeg|png|webp|gif|bmp)$/i.test(fileName)` of source
line 184: the name, lower-cased, ends in a dot followed by one of the
extensions. -/
def isImageName (s : String) : Bool :=
  extSet.any (fun ext => List.isSuffixOf ('.' :: ext) (s.data.map Char.toLower))

/-- The spec-side reading of the classification rule: the segment after
the last dot of the lower-cased name is one of the image extensions
(`none` when the name has no dot, hence no extension segment). -/
def lastExtSegment (s : String) : Option (List Char) :=
  match lastDotIdx (s.data.map Char.toLower) with
  | none => none
  | some i => some ((s.data.map Char.toLower).drop (i + 1))

/-- Spec-side classification: the filename's last extension segment,
matched case-insensitively, is in `extSet`. -/
def specImageMatch (s : String) : Bool :=
  match lastExtSegment s with
  | none => false
  | some seg => extSet.contains seg

/-- What happens when the pipeline downloads and transforms one
attachment: the download and transform both succeed, the download fails
(`fetch` returns non-2xx, source line 194), or the transform fails
(decode or encode failure inside `processImageWithPixel`). -/
inductive AttachmentBehavior where
  | ok
  | downloadFail (statusText : String)
  | transformFail (msg : String)
deriving DecidableEq

/-- An attachment as read from the source field: its display name
(`""` models a falsy/absent name) and the behavior of its download and
transform. -/
structure Attachment where
  name : String
  behavior : AttachmentBehavior
deriving DecidableEq

/-- `const fileName = attachment.name || 'image.jpg'` (source line 183). -/
def effectiveName (a : Attachment) : String :=
  if a.name = "" then ("image.jpg") else a.name

/-- A processed output file as constructed on source line 207:
`new File([blob], newFileName, { type: 'image/jpeg' })`. -/
structure ProcessedFile where
  name : String
  mimeType : String
deriving DecidableEq

/-- The result of the per-attachment loop body (source lines 177–212) for
one attachment: skipped as non-image (logged with the effective name,
line 187), processed into a file, or failed and logged with the
attachment's original `name` (line 210). -/
inductive ItemResult where
  | skippedNonImage (name : String)
  | processed (file : ProcessedFile)
  | failedItem (name : String) (msg : String)
deriving DecidableEq

/-- The per-attachment loop body (source lines 181–211).  Returns the
item's result together with whether `processImageWithPixel` was invoked
for it. -/
def processAttachment (targetWidth targetHeight : Int) (a : Attachment) :
    ItemResult × Bool :=
  let fileName := effectiveName a
  if isImageName fileName then
    match a.behavior with
    | AttachmentBehavior.downloadFail st =>
        (ItemResult.failedItem a.name ("下载失败: " ++ st), false)
    | AttachmentBehavior.transformFail msg =>
        (ItemResult.failedItem a.name msg, true)
    | AttachmentBehavior.ok =>
        (ItemResult.processed
          ⟨newFileName fileName targetWidth targetHeight, "image/jpeg"⟩, true)
  else (ItemResult.skippedNonImage fileName, false)

/-- The `processedFiles` array accumulated by the loop (source lines
171–212): the files of the attachments whose download and transform both
succeeded, in order. -/
def producedFiles (targetWidth targetHeight : Int) (atts : List Attachment) :
    List ProcessedFile :=
  (atts.map (processAttachment targetWidth targetHeight)).filterMap
    (fun r => match r.1 with
      | ItemResult.processed f => some f
      | _ => none)

/-- The transform invocations made while processing the attachment list:
one call `processImageWithPixel(blob, targetWidth, targetHeight)`
(source line 199) per attachment whose download succeeded. -/
def transformCalls (targetWidth targetHeight : Int) (atts : List Attachment) :
    List (Int × Int) :=
  (atts.map (processAttachment targetWidth targetHeight)).filterMap
    (fun r => if r.2 then some (targetWidth, targetHeight) else none)

/-- What the source-field read (and the URL resolution) does for one
record: throws, or yields an attachment cell value (`none` models a
null/non-array value, source line 163) together with the acknowledgment
`targetField.setValue` would return (source line 217). -/
inductive RecordRead where
  | throws (msg : String)
  | val (atts : Option (List Attachment)) (ack : Bool)
deriving DecidableEq

/-- A record's outcome, as folded into the three counters. -/
inductive Outcome where
  | success
  | skipped (detail : String)
  | failed (detail : String)
deriving DecidableEq

/-- Everything observable about processing one record: the outcome, the
file set submitted to the destination field (empty when `setValue` was
not called), whether `setValue` was called, the transform invocations,
and the per-attachment results. -/
structure RecordResult where
  outcome : Outcome
  submitted : List ProcessedFile
  submitCalled : Bool
  calls : List (Int × Int)
  itemResults : List ItemResult
deriving DecidableEq

/-- The per-record body of the batch loop (source lines 159–234). -/
def processRecord (targetWidth targetHeight : Int) (r : RecordRead) : RecordResult :=
  match r with
  | RecordRead.throws msg => ⟨Outcome.failed msg, [], false, [], []⟩
  | RecordRead.val none _ => ⟨Outcome.skipped ("未找到附件"), [], false, [], []⟩
  | RecordRead.val (some atts) ack =>
    if atts.length = 0 then ⟨Outcome.skipped ("未找到附件"), [], false, [], []⟩
    else
      let items := atts.map (processAttachment targetWidth targetHeight)
      let files := producedFiles targetWidth targetHeight atts
      let calls := transformCalls targetWidth targetHeight atts
      if files.length > 0 then
        if ack then ⟨Outcome.success, files, true, calls, items.map Prod.fst⟩
        else ⟨Outcome.failed ("设置失败 (SDK 返回 false)"), files, true, calls,
              items.map Prod.fst⟩
      else ⟨Outcome.skipped ("无有效图片可处理"), [], false, calls, items.map Prod.fst⟩

/-- The three counters of the batch loop (source lines 151–153). -/
structure Summary where
  successCount : Nat
  skipCount : Nat
  failCount : Nat
deriving DecidableEq

/-- Folding one record's outcome into the counters
(`successCount++` / `skipCount++` / `failCount++`). -/
def addOutcome (o : Outcome) (s : Summary) : Summary :=
  match o with
  | Outcome.success => ⟨s.successCount + 1, s.skipCount, s.failCount⟩
  | Outcome.skipped _ => ⟨s.successCount, s.skipCount + 1, s.failCount⟩
  | Outcome.failed _ => ⟨s.successCount, s.skipCount, s.failCount + 1⟩

/-- The counters after the whole loop: a left fold of the record outcomes
starting from `(0, 0, 0)`. -/
def summarize (targetWidth targetHeight : Int) (records : List RecordRead) : Summary :=
  (records.map (processRecord targetWidth targetHeight)).foldl
    (fun s r => addOutcome r.outcome s) ⟨0, 0, 0⟩

/-- An observable event of a run, in program order: a `setProgress` call,
the completion of one record with its outcome, or a `setStatusMsg` call. -/
inductive Event where
  | progressSet (current total : Nat)
  | recordDone (index : Nat) (o : Outcome)
  | status (msg : String)
deriving DecidableEq

/-- The events emitted by the batch loop (source lines 155–235), starting
at record index `i`: for each record, first `setProgress({current: i+1,
total})` (line 157), then the record's processing completes with its
outcome. -/
def recordEvents (targetWidth targetHeight : Int) (total : Nat) :
    Nat → List RecordRead → List Event
  | _, [] => []
  | i, r :: rs =>
    Event.progressSet (i + 1) total ::
    Event.recordDone i (processRecord targetWidth targetHeight r).outcome ::
    recordEvents targetWidth targetHeight total (i + 1) rs

/-- The final status message on normal completion (source line 237). -/
def summaryMsg (s : Summary) : String :=
  "处理完成！成功: " ++ toString s.successCount ++ ", 跳过: " ++
    toString s.skipCount ++ ", 失败: " ++ toString s.failCount

/-- The inputs of one run of `handleConvert`: the two field selections
(`""` models no selection) and, per record, what its reads and writes
would do. -/
structure BatchInput where
  sourceFieldId : String
  targetFieldId : String
  records : List RecordRead
deriving DecidableEq

/-- The observable result of one run: the event trace, the summary
(`none` when the run ended without completing the loop), and the
per-record results (`[]` when the loop never ran). -/
structure RunResult where
  trace : List Event
  summary : Option Summary
  recordResults : List RecordResult
deriving DecidableEq

/-- `handleConvert` (source lines 127–245): the missing-selection guard
(lines 128–131), the empty-record-set fatal error (lines 142–144, caught
by the outer catch at line 238), and otherwise the sequential loop over
all records followed by the final status message (line 237) and the
progress reset in `finally` (line 243). -/
def handleConvert (targetWidth targetHeight : Int) (b : BatchInput) : RunResult :=
  if b.sourceFieldId = "" ∨ b.targetFieldId = "" then
    ⟨[Event.status ("请先选择源字段和目标字段")], none, []⟩
  else
    let total := b.records.length
    if total = 0 then
      ⟨[Event.status ("正在初始化处理..."),
        Event.status ("失败: 当前表格没有记录"),
        Event.progressSet 0 0], none, []⟩
    else
      let s := summarize targetWidth targetHeight b.records
      ⟨Event.status ("正在初始化处理...") :: Event.progressSet 0 total ::
          (recordEvents targetWidth targetHeight total 0 b.records ++
            [Event.status (summaryMsg s), Event.progressSet 0 0]),
        some s,
        b.records.map (processRecord targetWidth targetHeight)⟩

/-- The dimension-input handler of the configuration form (source lines
303 and 311): `Number(e.target.value) || 1`, where `none` models a
non-numeric value (`NaN`).  Zero and `NaN` are coerced to 1; any other
value, including negative values, passes through. -/
def coerceDim (n : Option Int) : Int :=
  match n with
  | none => 1
  | some v => if v = 0 then 1 else v

/-- All transform invocations of one run. -/
def allTransformCalls (targetWidth targetHeight : Int) (b : BatchInput) :
    List (Int × Int) :=
  ((handleConvert targetWidth targetHeight b).recordResults).foldr
    (fun r acc => r.calls ++ acc) []

/-- The `(current, total)` arguments of the `setProgress` calls of a
trace, in order. -/
def progressEvents (tr : List Event) : List (Nat × Nat) :=
  tr.filterMap (fun e => match e with
    | Event.progressSet c t => some (c, t)
    | _ => none)

/-! ## Helper lemmas -/

theorem string_mk_data (s : String) : String.mk s.data = s := by
  cases s
  rfl

theorem lastDotIdx_eq_none_iff (cs : List Char) : lastDotIdx cs = none ↔ '.' ∉ cs := by
  induction cs with
  | nil => simp [lastDotIdx]
  | cons c cs ih =>
    cases h : lastDotIdx cs with
    | some i =>
      have hmem : '.' ∈ cs := not_not.mp (mt ih.mpr (by simp [h]))
      simp [lastDotIdx, h, hmem]
    | none =>
      have hnm : '.' ∉ cs := ih.mp h
      by_cases hc : c = '.'
      · simp [lastDotIdx, h, hc]
      · simp [lastDotIdx, h, hc, hnm, Ne.symm hc]

theorem lastDotIdx_append (s t : List Char) (ht : '.' ∉ t) :
    lastDotIdx (s ++ '.' :: t) = some s.length := by
  induction s with
  | nil => simp [lastDotIdx, (lastDotIdx_eq_none_iff t).mpr ht]
  | cons c s ih => simp [lastDotIdx, ih]

theorem lastDotIdx_spec (cs : List Char) (i : Nat) (h : lastDotIdx cs = some i) :
    ∃ pre post, cs = pre ++ '.' :: post ∧ pre.length = i ∧ '.' ∉ post := by
  induction cs generalizing i with
  | nil => simp [lastDotIdx] at h
  | cons c cs ih =>
    cases hcs : lastDotIdx cs with
    | some j =>
      simp only [lastDotIdx, hcs, Option.some.injEq] at h
      obtain ⟨pre, post, hdec, hlen, hpost⟩ := ih j hcs
      exact ⟨c :: pre, post, by simp [hdec], by simp [hlen, ← h], hpost⟩
    | none =>
      simp only [lastDotIdx, hcs] at h
      by_cases hc : c = '.'
      · rw [if_pos hc] at h
        obtain rfl : i = 0 := (Option.some.injEq _ _ ▸ h).symm
        exact ⟨[], cs, by simp [hc], rfl, (lastDotIdx_eq_none_iff cs).mp hcs⟩
      · rw [if_neg hc] at h
        exact absurd h (by simp)

theorem drop_after_dot (pre post : List Char) :
    (pre ++ '.' :: post).drop (pre.length + 1) = post := by
  have h : pre ++ '.' :: post = (pre ++ ['.']) ++ post := by simp
  rw [h, List.drop_left' (by simp)]

theorem isImageName_eq_specImageMatch (s : String) : isImageName s = specImageMatch s := by
  rw [Bool.eq_iff_iff]
  unfold isImageName specImageMatch lastExtSegment
  constructor
  · intro h
    obtain ⟨ext, hextmem, hsuff⟩ := List.any_eq_true.mp h
    have hsuf : ('.' :: ext) <:+ (s.data.map Char.toLower) := by
      simpa using hsuff
    obtain ⟨pre, hpre⟩ := hsuf
    have hdotext : '.' ∉ ext := by
      fin_cases hextmem <;> decide
    rw [← hpre, lastDotIdx_append pre ext hdotext]
    simpa [drop_after_dot] using List.elem_iff.mpr hextmem
  · intro h
    cases hidx : lastDotIdx (s.data.map Char.toLower) with
    | none => rw [hidx] at h; simp at h
    | some i =>
      simp only [hidx] at h
      obtain ⟨pre, post, hdec, hlen, hpost⟩ := lastDotIdx_spec _ i hidx
      have hdrop : (s.data.map Char.toLower).drop (i + 1) = post := by
        rw [hdec, ← hlen, drop_after_dot]
      rw [hdrop] at h
      have hmem : post ∈ extSet := List.elem_iff.mp (by simpa using h)
      refine List.any_eq_true.mpr ⟨post, hmem, ?_⟩
      simp only [List.isSuffixOf_iff_suffix]
      exact ⟨pre, hdec.symm⟩

theorem mem_transformCalls (W H : Int) (atts : List Attachment) (c : Int × Int)
    (h : c ∈ transformCalls W H atts) : c = (W, H) := by
  obtain ⟨x, _, hfx⟩ := List.mem_filterMap.mp h
  by_cases hb : x.2 = true
  · simp [hb] at hfx
    exact hfx.symm
  · simp [Bool.eq_false_iff.mpr hb] at hfx

theorem mem_processRecord_calls (W H : Int) (r : RecordRead) (c : Int × Int)
    (h : c ∈ (processRecord W H r).calls) : c = (W, H) := by
  cases r with
  | throws msg => simp [processRecord] at h
  | val atts ack =>
    cases atts with
    | none => simp [processRecord] at h
    | some l =>
      by_cases hl : l.length = 0
      · simp [processRecord, hl] at h
      · have hcalls : (processRecord W H (RecordRead.val (some l) ack)).calls =
            transformCalls W H l := by
          simp only [processRecord, if_neg hl]
          by_cases hf : (producedFiles W H l).length > 0
          · by_cases hack : ack <;> simp [hf, hack]
          · simp [hf]
        rw [hcalls] at h
        exact mem_transformCalls W H l c h

theorem mem_allTransformCalls (W H : Int) (b : BatchInput) (c : Int × Int)
    (h : c ∈ allTransformCalls W H b) : c = (W, H) := by
  have key : ∀ (l : List RecordResult),
      c ∈ l.foldr (fun r acc => r.calls ++ acc) [] → ∃ r ∈ l, c ∈ r.calls := by
    intro l
    induction l with
    | nil => simp
    | cons r l ih =>
      intro hc
      rcases List.mem_append.mp hc with hc | hc
      · exact ⟨r, List.mem_cons_self r l, hc⟩
      · obtain ⟨r', hr', hc'⟩ := ih hc
        exact ⟨r', List.mem_cons_of_mem r hr', hc'⟩
  unfold allTransformCalls at h
  obtain ⟨res, hres, hc⟩ := key _ h
  unfold handleConvert at hres
  by_cases hsel : b.sourceFieldId = "" ∨ b.targetFieldId = ""
  · simp [hsel] at hres
  · by_cases htot : b.records.length = 0
    · simp [hsel, htot] at hres
    · simp only [if_neg hsel, if_neg htot] at hres
      obtain ⟨rec, _, hmap⟩ := List.mem_map.mp hres
      exact mem_processRecord_calls W H rec c (hmap ▸ hc)

theorem producedFiles_append (W H : Int) (xs ys : List Attachment) :
    producedFiles W H (xs ++ ys) = producedFiles W H xs ++ producedFiles W H ys := by
  simp [producedFiles, List.filterMap_append]

theorem producedFiles_failed_cons (W H : Int) (a : Attachment)
    (hb : a.behavior ≠ AttachmentBehavior.ok) (ys : List Attachment) :
    producedFiles W H (a :: ys) = producedFiles W H ys := by
  simp only [producedFiles, List.map_cons, List.filterMap_cons]
  by_cases himg : isImageName (effectiveName a) = true
  · cases hbb : a.behavior with
    | ok => exact absurd hbb hb
    | downloadFail st => simp [processAttachment, himg, hbb]
    | transformFail msg => simp [processAttachment, himg, hbb]
  · simp [processAttachment, Bool.eq_false_iff.mpr himg]

theorem processAttachment_ok_image (W H : Int) (a : Attachment)
    (himg : isImageName (effectiveName a) = true)
    (hb : a.behavior = AttachmentBehavior.ok) :
    processAttachment W H a =
      (ItemResult.processed ⟨newFileName (effectiveName a) W H, "image/jpeg"⟩, true) := by
  simp [processAttachment, himg, hb]

theorem addOutcome_cases (o : Outcome) (s0 : Summary) :
    addOutcome o s0 = ⟨s0.successCount + 1, s0.skipCount, s0.failCount⟩ ∨
    addOutcome o s0 = ⟨s0.successCount, s0.skipCount + 1, s0.failCount⟩ ∨
    addOutcome o s0 = ⟨s0.successCount, s0.skipCount, s0.failCount + 1⟩ := by
  cases o with
  | success => exact Or.inl rfl
  | skipped d => exact Or.inr (Or.inl rfl)
  | failed d => exact Or.inr (Or.inr rfl)

theorem summarize_length (W H : Int) (rs : List RecordRead) :
    (summarize W H rs).successCount + (summarize W H rs).skipCount +
      (summarize W H rs).failCount = rs.length := by
  have key : ∀ (l : List RecordResult) (init : Summary),
      (l.foldl (fun s r => addOutcome r.outcome s) init).successCount +
        (l.foldl (fun s r => addOutcome r.outcome s) init).skipCount +
        (l.foldl (fun s r => addOutcome r.outcome s) init).failCount =
      init.successCount + init.skipCount + init.failCount + l.length := by
    intro l
    induction l with
    | nil => intro init; simp
    | cons r l ih =>
      intro init
      rw [List.foldl_cons, ih (addOutcome r.outcome init), List.length_cons]
      rcases addOutcome_cases r.outcome init with h | h | h <;> rw [h] <;> simp <;> omega
  simpa [summarize] using key (rs.map (processRecord W H)) ⟨0, 0, 0⟩

theorem length_recordEvents (W H : Int) (total : Nat) (rs : List RecordRead) (i : Nat) :
    (recordEvents W H total i rs).length = 2 * rs.length := by
  induction rs generalizing i with
  | nil => simp [recordEvents]
  | cons r rs ih => simp [recordEvents, ih]; omega

theorem progressEvents_recordEvents (W H : Int) (total : Nat) (rs : List RecordRead) (i : Nat) :
    progressEvents (recordEvents W H total i rs) =
      (List.range rs.length).map (fun j => (i + j + 1, total)) := by
  induction rs generalizing i with
  | nil => simp [recordEvents, progressEvents]
  | cons r rs ih =>
    simp only [recordEvents, progressEvents, List.filterMap_cons, List.length_cons]
    rw [List.range_succ_eq_map, List.map_cons, List.map_map]
    refine congrArg₂ List.cons (by simp) ?_
    rw [← progressEvents, ih (i + 1)]
    refine List.map_congr_left ?_
    intro a _
    simp [Function.comp, Nat.succ_eq_add_one]
    omega

theorem recordEvents_getElem (W H : Int) (total : Nat) (rs : List RecordRead)
    (k j : Nat) (r : RecordRead) (h : rs[j]? = some r) :
    (recordEvents W H total k rs)[2 * j]? = some (Event.progressSet (k + j + 1) total) ∧
    (recordEvents W H total k rs)[2 * j + 1]? =
      some (Event.recordDone (k + j) (processRecord W H r).outcome) := by
  induction rs generalizing k j with
  | nil => simp at h
  | cons r0 rs ih =>
    cases j with
    | zero =>
      simp only [List.getElem?_cons_zero, Option.some.injEq] at h
      subst h
      simp [recordEvents]
    | succ j' =>
      simp only [List.getElem?_cons_succ] at h
      have hrec := ih (k + 1) j' h
      have h2 : 2 * (j' + 1) = 2 * j' + 1 + 1 := by omega
      constructor
      · rw [h2]
        simp only [recordEvents, List.getElem?_cons_succ]
        rw [(by omega : k + (j' + 1) + 1 = k + 1 + j' + 1)]
        exact hrec.1
      · rw [h2]
        simp only [recordEvents, List.getElem?_cons_succ]
        rw [(by omega : k + (j' + 1) = k + 1 + j')]
        exact hrec.2

/-! ## Claim theorems -/

/-- C1: the transform computes the source crop rectangle exactly as
specified.  When `imgWidth/imgHeight > targetWidth/targetHeight` it sets
`sourceHeight = imgHeight`, `sourceWidth = imgHeight * targetRatio`,
`sourceX = (imgWidth - sourceWidth)/2`, `sourceY = 0`; otherwise
(including exact ratio equality) it sets `sourceWidth = imgWidth`,
`sourceHeight = imgWidth / targetRatio`, `sourceX = 0`,
`sourceY = (imgHeight - sourceHeight)/2`; and when the ratios are exactly
equal the crop rectangle is the whole image — zero cropping. -/
theorem computeCrop_spec (iw ih tw th : ℚ) :
    (iw / ih > tw / th →
      computeCrop iw ih tw th =
        ⟨(iw - ih * (tw / th)) / 2, 0, ih * (tw / th), ih⟩) ∧
    (¬ iw / ih > tw / th →
      computeCrop iw ih tw th =
        ⟨0, (ih - iw / (tw / th)) / 2, iw, iw / (tw / th)⟩) ∧
    (0 < ih → 0 < tw → 0 < th → iw / ih = tw / th →
      computeCrop iw ih tw th = ⟨0, 0, iw, ih⟩) := by
  refine ⟨?_, ?_, ?_⟩
  · intro h
    simp only [computeCrop]
    rw [if_pos h]
  · intro h
    simp only [computeCrop]
    rw [if_neg h]
  · intro hih htw hth heq
    have hgt : ¬ iw / ih > tw / th := by rw [heq]; exact lt_irrefl _
    simp only [computeCrop]
    rw [if_neg hgt]
    have hih' : ih ≠ 0 := ne_of_gt hih
    have htw' : tw ≠ 0 := ne_of_gt htw
    have hth' : th ≠ 0 := ne_of_gt hth
    have hcross : iw * th = tw * ih := (div_eq_div_iff hih' hth').mp heq
    have hkey : iw / (tw / th) = ih := by
      rw [div_div_eq_mul_div, hcross, mul_div_cancel_left₀ _ htw']
    simp [hkey]

/-- C1 witness: an image of dimensions 4×2 with target 2×1 (equal ratios)
is scaled with zero cropping. -/
theorem computeCrop_spec_witness : computeCrop 4 2 2 1 = ⟨0, 0, 4, 2⟩ :=
  (computeCrop_spec 4 2 2 1).2.2 (by norm_num) (by norm_num) (by norm_num) (by norm_num)

/-- C2: for positive target dimensions and every decoded input, the
output canvas has exactly the target pixel dimensions regardless of the
input's aspect ratio, the operation list starts by filling the whole
canvas with opaque white before the single crop-and-scale draw, and the
result is encoded as JPEG at quality 0.9. -/
theorem processImageWithPixel_output (iw ih : ℚ) (tw th : Int)
    (_hw : 0 < tw) (_hh : 0 < th) :
    (processImageWithPixel iw ih tw th).width = tw ∧
    (processImageWithPixel iw ih tw th).height = th ∧
    (processImageWithPixel iw ih tw th).ops =
      [CanvasOp.fillRect ("#FFFFFF") 0 0 tw th,
       CanvasOp.drawImage (computeCrop iw ih (tw : ℚ) (th : ℚ)) 0 0 tw th] ∧
    (processImageWithPixel iw ih tw th).mimeType = "image/jpeg" ∧
    (processImageWithPixel iw ih tw th).quality = 9 / 10 :=
  ⟨rfl, rfl, rfl, rfl, rfl⟩

/-- C2 witness at a 200×100 source and 100×100 target. -/
theorem processImageWithPixel_output_witness :
    (processImageWithPixel 200 100 100 100).width = 100 ∧
    (processImageWithPixel 200 100 100 100).height = 100 ∧
    (processImageWithPixel 200 100 100 100).ops =
      [CanvasOp.fillRect ("#FFFFFF") 0 0 100 100,
       CanvasOp.drawImage (computeCrop 200 100 (100 : ℚ) (100 : ℚ)) 0 0 100 100] ∧
    (processImageWithPixel 200 100 100 100).mimeType = "image/jpeg" ∧
    (processImageWithPixel 200 100 100 100).quality = 9 / 10 :=
  processImageWithPixel_output 200 100 100 100 (by norm_num) (by norm_num)

/-- C3: the derived output filename is `<basename>_<W>x<H>.jpg`, where
the basename strips everything from the last `'.'` onward (a name with no
`'.'` is used whole); every produced file's name follows this rule and
its MIME type is fixed to `image/jpeg`; the derivation is a pure function
of `(filename, W, H)`. -/
theorem newFileName_spec (s t : String) (W H : Int) :
    ('.' ∉ t.data →
      newFileName (s ++ "." ++ t) W H =
        s ++ "_" ++ toString W ++ "x" ++ toString H ++ ".jpg") ∧
    ('.' ∉ s.data →
      newFileName s W H = s ++ "_" ++ toString W ++ "x" ++ toString H ++ ".jpg") ∧
    (∀ (a : Attachment) (f : ProcessedFile),
      (processAttachment W H a).1 = ItemResult.processed f →
        f.mimeType = "image/jpeg" ∧ f.name = newFileName (effectiveName a) W H) ∧
    (newFileName s W H = newFileName s W H) := by
  refine ⟨?_, ?_, ?_, rfl⟩
  · intro ht
    have hdata : (s ++ "." ++ t).data = s.data ++ '.' :: t.data := by
      simp [String.data_append]
    have hbase : baseName (s ++ "." ++ t) = s := by
      simp only [baseName, hdata, lastDotIdx_append s.data t.data ht]
      rw [List.take_left, string_mk_data]
    simp only [newFileName, hbase]
  · intro hs
    have hbase : baseName s = s := by
      simp only [baseName, (lastDotIdx_eq_none_iff s.data).mpr hs]
    simp only [newFileName, hbase]
  · intro a f h
    by_cases himg : isImageName (effectiveName a) = true
    · cases hb : a.behavior with
      | ok =>
        rw [processAttachment_ok_image W H a himg hb] at h
        simp only [ItemResult.processed.injEq] at h
        rw [← h]
        exact ⟨rfl, rfl⟩
      | downloadFail st => simp [processAttachment, himg, hb] at h
      | transformFail msg => simp [processAttachment, himg, hb] at h
    · simp [processAttachment, Bool.eq_false_iff.mpr himg] at h

/-- C3 witness: `photo.png` with target 100×100 maps to
`photo_100x100.jpg`. -/
theorem newFileName_spec_witness :
    newFileName ("photo" ++ "." ++ "png") 100 100 =
      "photo" ++ "_" ++ toString (100 : Int) ++ "x" ++ toString (100 : Int) ++ ".jpg" :=
  (newFileName_spec ("photo") ("png") 100 100).1 (by decide)

/-- C4: outcome classification for one record.  An empty or absent
attachment list yields outcome skipped with detail "no attachment found"
(and folding a skipped outcome increments only the skip counter); when at
least one ProcessedFile was produced, the full set is submitted in one
call and a truthy acknowledgment yields success while a falsy one yields
failed with the rejection detail; when zero ProcessedFiles were produced
the outcome is skipped with detail "no valid image to process". -/
theorem processRecord_outcomes (W H : Int) (atts : List Attachment) (ack : Bool)
    (hne : atts ≠ []) :
    (processRecord W H (RecordRead.val none ack) =
      ⟨Outcome.skipped ("未找到附件"), [], false, [], []⟩) ∧
    (processRecord W H (RecordRead.val (some []) ack) =
      ⟨Outcome.skipped ("未找到附件"), [], false, [], []⟩) ∧
    (∀ (d : String) (s0 : Summary),
      addOutcome (Outcome.skipped d) s0 =
        ⟨s0.successCount, s0.skipCount + 1, s0.failCount⟩) ∧
    (producedFiles W H atts ≠ [] →
      (processRecord W H (RecordRead.val (some atts) ack)).submitted =
        producedFiles W H atts ∧
      (processRecord W H (RecordRead.val (some atts) ack)).submitCalled = true ∧
      (processRecord W H (RecordRead.val (some atts) ack)).outcome =
        (if ack then Outcome.success
         else Outcome.failed ("设置失败 (SDK 返回 false)"))) ∧
    (producedFiles W H atts = [] →
      (processRecord W H (RecordRead.val (some atts) ack)).outcome =
        Outcome.skipped ("无有效图片可处理") ∧
      (processRecord W H (RecordRead.val (some atts) ack)).submitCalled = false) := by
  have hlen : ¬ atts.length = 0 := by
    simpa [List.length_eq_zero] using hne
  refine ⟨rfl, rfl, fun d s0 => rfl, ?_, ?_⟩
  · intro hfiles
    have hpos : (producedFiles W H atts).length > 0 := List.length_pos.mpr hfiles
    by_cases hack : ack <;>
      simp [processRecord, hlen, hpos, hack]
  · intro hfiles
    simp [processRecord, hlen, hfiles]

/-- C4 witness: a record with one good image attachment and a truthy
acknowledgment. -/
theorem processRecord_outcomes_witness :
    (processRecord 100 100 (RecordRead.val
        (some [⟨"a.jpg", AttachmentBehavior.ok⟩]) true)).submitted =
      producedFiles 100 100 [⟨"a.jpg", AttachmentBehavior.ok⟩] ∧
    (processRecord 100 100 (RecordRead.val
        (some [⟨"a.jpg", AttachmentBehavior.ok⟩]) true)).submitCalled = true ∧
    (processRecord 100 100 (RecordRead.val
        (some [⟨"a.jpg", AttachmentBehavior.ok⟩]) true)).outcome =
      (if true then Outcome.success
       else Outcome.failed ("设置失败 (SDK 返回 false)")) :=
  (processRecord_outcomes 100 100 [⟨"a.jpg", AttachmentBehavior.ok⟩] true
    (by decide)).2.2.2.1 (by decide)

/-- C5: a per-attachment failure is caught inside the loop (yielding a
failed item logged with that attachment's original name), removes only
that attachment's output, and never turns the record's outcome into
failed while at least one file was produced and the write is
acknowledged; in particular two image attachments with one failing
download submit exactly one file and the record succeeds under a truthy
acknowledgment. -/
theorem attachment_failure_isolation (W H : Int) (xs ys : List Attachment)
    (a : Attachment) (hb : a.behavior ≠ AttachmentBehavior.ok) :
    (producedFiles W H (xs ++ a :: ys) = producedFiles W H (xs ++ ys)) ∧
    (isImageName (effectiveName a) = true →
      ∃ msg, (processAttachment W H a).1 = ItemResult.failedItem a.name msg) ∧
    (∀ (a1 a2 : Attachment) (st : String),
      isImageName (effectiveName a1) = true → a1.behavior = AttachmentBehavior.ok →
      a2.behavior = AttachmentBehavior.downloadFail st →
      (processRecord W H (RecordRead.val (some [a1, a2]) true)).outcome =
          Outcome.success ∧
      (processRecord W H (RecordRead.val (some [a1, a2]) true)).submitted.length = 1) ∧
    (∀ (atts : List Attachment), producedFiles W H atts ≠ [] →
      (processRecord W H (RecordRead.val (some atts) true)).outcome =
        Outcome.success) := by
  refine ⟨?_, ?_, ?_, ?_⟩
  · rw [producedFiles_append, producedFiles_failed_cons W H a hb ys,
      producedFiles_append]
  · intro himg
    cases hbb : a.behavior with
    | ok => exact absurd hbb hb
    | downloadFail st =>
      exact ⟨"下载失败: " ++ st, by simp [processAttachment, himg, hbb]⟩
    | transformFail msg =>
      exact ⟨msg, by simp [processAttachment, himg, hbb]⟩
  · intro a1 a2 st himg1 hb1 hb2
    have hfiles : producedFiles W H [a1, a2] =
        [⟨newFileName (effectiveName a1) W H, "image/jpeg"⟩] := by
      have h1 : ([a1, a2] : List Attachment) = [a1] ++ a2 :: [] := by simp
      rw [h1, producedFiles_append, producedFiles_failed_cons W H a2 (by simp [hb2]) []]
      simp [producedFiles, processAttachment_ok_image W H a1 himg1 hb1]
    have hlen : ¬ ([a1, a2] : List Attachment).length = 0 := by simp
    constructor
    · simp [processRecord, hlen, hfiles]
    · simp [processRecord, hlen, hfiles]
  · intro atts hfiles
    have hne : atts ≠ [] := by
      intro h
      rw [h] at hfiles
      exact hfiles (by simp [producedFiles])
    have hlen : ¬ atts.length = 0 := by simpa [List.length_eq_zero] using hne
    have hpos : (producedFiles W H atts).length > 0 := List.length_pos.mpr hfiles
    simp [processRecord, hlen, hpos]

/-- C5 witness: two image attachments, the second failing its download. -/
theorem attachment_failure_isolation_witness :
    (processRecord 100 100 (RecordRead.val
        (some [⟨"a.jpg", AttachmentBehavior.ok⟩,
               ⟨"b.png", AttachmentBehavior.downloadFail ("404")⟩]) true)).outcome =
      Outcome.success ∧
    (processRecord 100 100 (RecordRead.val
        (some [⟨"a.jpg", AttachmentBehavior.ok⟩,
               ⟨"b.png", AttachmentBehavior.downloadFail ("404")⟩]) true)).submitted.length
      = 1 :=
  (attachment_failure_isolation 100 100 [] []
      ⟨"b.png", AttachmentBehavior.downloadFail ("404")⟩ (by decide)).2.2.1
    ⟨"a.jpg", AttachmentBehavior.ok⟩
    ⟨"b.png", AttachmentBehavior.downloadFail ("404")⟩ "404"
    (by decide) (by decide) (by decide)

/-- C6: an exception thrown while processing one record (e.g. the
source-field read throwing) is caught at the record boundary, yields
outcome failed with the exception's message, and every other record is
still processed; a missing field selection or an empty record set aborts
the run before the loop with no records processed. -/
theorem record_boundary_isolation (W H : Int) (b : BatchInput) :
    ((b.sourceFieldId = "" ∨ b.targetFieldId = "") →
      (handleConvert W H b).recordResults = [] ∧
      (handleConvert W H b).summary = none) ∧
    (b.records = [] →
      (handleConvert W H b).recordResults = [] ∧
      (handleConvert W H b).summary = none) ∧
    (b.sourceFieldId ≠ "" → b.targetFieldId ≠ "" → b.records ≠ [] →
      (handleConvert W H b).recordResults.length = b.records.length ∧
      (handleConvert W H b).summary = some (summarize W H b.records) ∧
      (∀ (i : Nat) (msg : String), b.records[i]? = some (RecordRead.throws msg) →
        ((handleConvert W H b).recordResults[i]?).map RecordResult.outcome =
          some (Outcome.failed msg))) := by
  refine ⟨?_, ?_, ?_⟩
  · intro hsel
    simp [handleConvert, hsel]
  · intro hrec
    by_cases hsel : b.sourceFieldId = "" ∨ b.targetFieldId = ""
    · simp [handleConvert, hsel]
    · simp [handleConvert, hsel, hrec]
  · intro hs ht hne
    have hsel : ¬ (b.sourceFieldId = "" ∨ b.targetFieldId = "") := by
      simp [hs, ht]
    have hlen : ¬ b.records.length = 0 := by
      simpa [List.length_eq_zero] using hne
    refine ⟨by simp [handleConvert, hsel, hlen], by simp [handleConvert, hsel, hlen], ?_⟩
    intro i msg hi
    simp only [handleConvert, if_neg hsel, if_neg hlen, List.getElem?_map, hi,
      Option.map_some]
    rfl

/-- C6 witness: a two-record batch whose first record's field read
throws; the second record is still processed. -/
theorem record_boundary_isolation_witness :
    ((handleConvert 1 1 ⟨"s", "t",
        [RecordRead.throws ("boom"), RecordRead.val none true]⟩).recordResults[0]?).map
      RecordResult.outcome = some (Outcome.failed ("boom")) :=
  ((record_boundary_isolation 1 1 ⟨"s", "t",
      [RecordRead.throws ("boom"), RecordRead.val none true]⟩).2.2
    (by decide) (by decide) (by decide)).2.2 0 "boom" (by decide)

/-- C7 counterexample: the classification is not an iff against the
attachment's own filename.  An attachment whose name is empty (falsy) is
given the default name `image.jpg` (source line 183) and classified as an
image, although the empty filename matches no image extension. -/
theorem image_classification_cex :
    ¬ (∀ a : Attachment, isImageName (effectiveName a) = specImageMatch a.name) := by
  intro h
  have hx := h ⟨"", AttachmentBehavior.ok⟩
  revert hx
  decide

/-- C7 (amended): an attachment with a nonempty filename is classified as
an image iff its last extension segment, matched case-insensitively, is
one of jpg/jpeg/png/webp/gif/bmp; an attachment with an empty (falsy)
filename defaults to `image.jpg` and is classified as an image; every
non-matching attachment is excluded with a log entry only — no transform
is invoked for it and it is not counted as a failure. -/
theorem image_classification_amended (W H : Int) :
    (∀ a : Attachment, a.name ≠ "" →
      isImageName (effectiveName a) = specImageMatch a.name) ∧
    (∀ a : Attachment, a.name = "" → isImageName (effectiveName a) = true) ∧
    (∀ a : Attachment, isImageName (effectiveName a) = false →
      processAttachment W H a = (ItemResult.skippedNonImage (effectiveName a), false)) := by
  refine ⟨?_, ?_, ?_⟩
  · intro a h
    rw [effectiveName, if_neg h, isImageName_eq_specImageMatch]
  · intro a h
    rw [effectiveName, if_pos h]
    decide
  · intro a h
    simp [processAttachment, h]

/-- C7 witness: `doc.pdf` is not classified as an image and is excluded
without a transform call and without a failure. -/
theorem image_classification_amended_witness :
    isImageName (effectiveName ⟨"doc.pdf", AttachmentBehavior.ok⟩) =
      specImageMatch ("doc.pdf") ∧
    processAttachment 1 1 ⟨"doc.pdf", AttachmentBehavior.ok⟩ =
      (ItemResult.skippedNonImage (effectiveName ⟨"doc.pdf", AttachmentBehavior.ok⟩),
        false) :=
  ⟨(image_classification_amended 1 1).1 ⟨"doc.pdf", AttachmentBehavior.ok⟩ (by decide),
   (image_classification_amended 1 1).2.2 ⟨"doc.pdf", AttachmentBehavior.ok⟩ (by decide)⟩

/-- C8 counterexample: negative target dimensions are NOT rejected before
the transform is invoked.  The input handler `Number(v) || 1` lets `-5`
through, and a run over a record with one good image attachment then
reaches a transform call with width `-5`. -/
theorem positive_dims_cex :
    ¬ (∀ (wIn hIn : Option Int) (b : BatchInput) (c : Int × Int),
        c ∈ allTransformCalls (coerceDim wIn) (coerceDim hIn) b →
        0 < c.1 ∧ 0 < c.2) := by
  intro h
  have hx := h (some (-5)) (some 100)
    ⟨"s", "t", [RecordRead.val (some [⟨"a.jpg", AttachmentBehavior.ok⟩]) true]⟩
    (-5, 100) (by decide)
  exact absurd hx.1 (by decide)

/-- C8 (amended): the dimension inputs coerce 0 and non-numeric values to
1, so a transform call never receives a zero dimension, and every
transform call a run makes uses exactly the configured pair — but no
positivity check exists, so negative configured dimensions reach the
transform unchanged. -/
theorem transform_dims_amended (wIn hIn : Option Int) (b : BatchInput) (c : Int × Int)
    (h : c ∈ allTransformCalls (coerceDim wIn) (coerceDim hIn) b) :
    c = (coerceDim wIn, coerceDim hIn) ∧ c.1 ≠ 0 ∧ c.2 ≠ 0 := by
  have hc := mem_allTransformCalls (coerceDim wIn) (coerceDim hIn) b c h
  have hz : ∀ v : Option Int, coerceDim v ≠ 0 := by
    intro v
    cases v with
    | none => decide
    | some n =>
      by_cases hn : n = 0
      · simp [coerceDim, hn]
      · simp [coerceDim, hn]
  exact ⟨hc, by rw [hc]; exact hz wIn, by rw [hc]; exact hz hIn⟩

/-- C8 witness: a run configured at 800×600 makes its transform call with
exactly (800, 600), both nonzero. -/
theorem transform_dims_amended_witness :
    ((800 : Int), (600 : Int)) = (coerceDim (some 800), coerceDim (some 600)) ∧
    ((800 : Int), (600 : Int)).1 ≠ 0 ∧ ((800 : Int), (600 : Int)).2 ≠ 0 :=
  transform_dims_amended (some 800) (some 600)
    ⟨"s", "t", [RecordRead.val (some [⟨"a.jpg", AttachmentBehavior.ok⟩]) true]⟩
    (800, 600) (by decide)

/-- C9 counterexample: the progress update for record `i` is NOT made
after record `i` completes.  In a one-record run, `setProgress(1, 1)` is
emitted (trace index 2) before the record's completion (trace index 3). -/
theorem progress_order_cex :
    ¬ (∀ (W H : Int) (b : BatchInput),
        b.sourceFieldId ≠ "" → b.targetFieldId ≠ "" → b.records ≠ [] →
        ∀ (i : Nat) (o : Outcome) (p q : Nat),
          (handleConvert W H b).trace[p]? = some (Event.recordDone i o) →
          (handleConvert W H b).trace[q]? =
            some (Event.progressSet (i + 1) b.records.length) →
          p < q) := by
  intro h
  have hx := h 1 1 ⟨"s", "t", [RecordRead.val none true]⟩
    (by decide) (by decide) (by decide)
    0 (Outcome.skipped ("未找到附件")) 3 2 (by decide) (by decide)
  exact absurd hx (by decide)

/-- C9 (amended): in every run with valid preconditions the progress
values move through exactly `(0,total), (1,total), …, (total,total)` —
one `+1` step per record, always within `0 ≤ current ≤ total` — and are
reset to `(0,0)` as the last event; the update to `i+1` happens when
record `i` starts processing, immediately before that record's
completion event; a final status message summarizing the three counts is
emitted on normal completion; a fatal empty-record-set run also ends
with the `(0,0)` reset. -/
theorem progress_trace_amended (W H : Int) (b : BatchInput)
    (hs : b.sourceFieldId ≠ "") (ht : b.targetFieldId ≠ "") :
    (b.records ≠ [] →
      progressEvents (handleConvert W H b).trace =
        (List.range (b.records.length + 1)).map (fun c => (c, b.records.length)) ++
          [(0, 0)] ∧
      Event.status (summaryMsg (summarize W H b.records)) ∈
        (handleConvert W H b).trace ∧
      (∀ (j : Nat) (r : RecordRead), b.records[j]? = some r →
        (handleConvert W H b).trace[2 * j + 2]? =
          some (Event.progressSet (j + 1) b.records.length) ∧
        (handleConvert W H b).trace[2 * j + 3]? =
          some (Event.recordDone j (processRecord W H r).outcome)) ∧
      (handleConvert W H b).trace.getLast? = some (Event.progressSet 0 0)) ∧
    (b.records = [] →
      (handleConvert W H b).trace.getLast? = some (Event.progressSet 0 0)) := by
  have hsel : ¬ (b.sourceFieldId = "" ∨ b.targetFieldId = "") := by simp [hs, ht]
  constructor
  · intro hne
    have hlen : ¬ b.records.length = 0 := by
      simpa [List.length_eq_zero] using hne
    have htr : (handleConvert W H b).trace =
        Event.status ("正在初始化处理...") :: Event.progressSet 0 b.records.length ::
          (recordEvents W H b.records.length 0 b.records ++
            [Event.status (summaryMsg (summarize W H b.records)),
             Event.progressSet 0 0]) := by
      simp [handleConvert, hsel, hlen]
    refine ⟨?_, ?_, ?_, ?_⟩
    · rw [htr]
      simp only [progressEvents, List.filterMap_cons, List.filterMap_append]
      rw [← progressEvents, ← progressEvents,
        progressEvents_recordEvents W H b.records.length b.records 0]
      rw [List.range_succ_eq_map, List.map_cons, List.map_map]
      simp [progressEvents, Function.comp, Nat.succ_eq_add_one, Nat.add_comm]
    · rw [htr]
      simp
    · intro j r hj
      have hrec := recordEvents_getElem W H b.records.length b.records 0 j r hj
      have hjlt : j < b.records.length := by
        rcases List.getElem?_eq_some.mp hj with ⟨hlt, _⟩
        exact hlt
      have hlt1 : 2 * j < (recordEvents W H b.records.length 0 b.records).length := by
        rw [length_recordEvents]
        omega
      have hlt2 : 2 * j + 1 < (recordEvents W H b.records.length 0 b.records).length := by
        rw [length_recordEvents]
        omega
      constructor
      · rw [htr]
        have h2 : 2 * j + 2 = (2 * j) + 1 + 1 := by omega
        rw [h2]
        simp only [List.getElem?_cons_succ]
        rw [List.getElem?_append_left hlt1]
        simpa using hrec.1
      · rw [htr]
        have h2 : 2 * j + 3 = (2 * j + 1) + 1 + 1 := by omega
        rw [h2]
        simp only [List.getElem?_cons_succ]
        rw [List.getElem?_append_left hlt2]
        simpa using hrec.2
    · rw [htr]
      have hshape : Event.status ("正在初始化处理...") ::
          Event.progressSet 0 b.records.length ::
            (recordEvents W H b.records.length 0 b.records ++
              [Event.status (summaryMsg (summarize W H b.records)),
               Event.progressSet 0 0]) =
          (Event.status ("正在初始化处理...") ::
            Event.progressSet 0 b.records.length ::
              (recordEvents W H b.records.length 0 b.records ++
                [Event.status (summaryMsg (summarize W H b.records))])) ++
            [Event.progressSet 0 0] := by
        simp
      rw [hshape, List.getLast?_concat]
  · intro hrec
    simp [handleConvert, hsel, hrec]

/-- C9 witness: a one-record run shows the full progress sequence
`(0,1), (1,1), (0,0)` and its trace structure. -/
theorem progress_trace_amended_witness :
    progressEvents (handleConvert 1 1 ⟨"s", "t", [RecordRead.val none true]⟩).trace =
      (List.range 2).map (fun c => (c, 1)) ++ [(0, 0)] :=
  ((progress_trace_amended 1 1 ⟨"s", "t", [RecordRead.val none true]⟩
    (by decide) (by decide)).1 (by decide)).1

/-- C10: folding any outcome into the counters increments exactly one of
the three, and on normal completion of the loop the three counts sum to
the number of records in the run. -/
theorem counts_partition (W H : Int) (b : BatchInput) (s : Summary)
    (h : (handleConvert W H b).summary = some s) :
    (∀ (o : Outcome) (s0 : Summary),
      addOutcome o s0 = ⟨s0.successCount + 1, s0.skipCount, s0.failCount⟩ ∨
      addOutcome o s0 = ⟨s0.successCount, s0.skipCount + 1, s0.failCount⟩ ∨
      addOutcome o s0 = ⟨s0.successCount, s0.skipCount, s0.failCount + 1⟩) ∧
    s.successCount + s.skipCount + s.failCount = b.records.length := by
  refine ⟨addOutcome_cases, ?_⟩
  by_cases hsel : b.sourceFieldId = "" ∨ b.targetFieldId = ""
  · simp [handleConvert, hsel] at h
  · by_cases hlen : b.records.length = 0
    · simp [handleConvert, hsel, hlen] at h
    · simp only [handleConvert, if_neg hsel, if_neg hlen, Option.some.injEq] at h
      rw [← h]
      exact summarize_length W H b.records

/-- C10 witness: a three-record run (one success, one skip, one failure)
has counts summing to 3. -/
theorem counts_partition_witness :
    (⟨1, 1, 1⟩ : Summary).successCount + (⟨1, 1, 1⟩ : Summary).skipCount +
      (⟨1, 1, 1⟩ : Summary).failCount =
    ([RecordRead.val (some [⟨"a.jpg", AttachmentBehavior.ok⟩]) true,
      RecordRead.val none true,
      RecordRead.throws ("boom")] : List RecordRead).length :=
  (counts_partition 100 100
    ⟨"s", "t",
      [RecordRead.val (some [⟨"a.jpg", AttachmentBehavior.ok⟩]) true,
       RecordRead.val none true,
       RecordRead.throws ("boom")]⟩
    ⟨1, 1, 1⟩ (by decide)).2
